import Mathlib

/-!
Verification of the NHL-Projections pipeline core.

This file gives a shallow embedding of the rolling-feature engine
(`scripts/04_build_features_moneypuck.py`), the model-table assembler
(`scripts/05_build_model_tables.py`), the trainer/selector
(`scripts/06_train_models_team.py`), the upcoming-game projector
(`scripts/07_project_upcoming_games_team.py`) and the schema helpers
(`src/nhlproj/common.py`), and proves the specified properties about it.

Conventions of the embedding:
* pandas numeric cells are rationals (`ℚ`); a missing value (NaN/null) is
  `Option.none`;
* a DataFrame is a list of rows, or, where column structure matters, an
  association list from column names to column value lists;
* team codes / entity keys are natural numbers where only their identity
  and order matter, and strings where the actual code text matters;
* `df.sort_values(keys)` is a stable sort by the keys (`List.insertionSort`
  with a non-strict total key order).
-/

namespace NHLProj

/-! ### Rows and sorting for the rolling-feature engine

`rolling_features(df, group_cols, sort_col, value_cols, windows)` first runs
`df.sort_values(group_cols + [sort_col])`.  A row carries its entity key
(the `group_cols` tuple), its `gameDate` (the `sort_col`) and the numeric
value of one value column. -/

structure Row where
  team : Nat
  gameDate : Nat
  value : ℚ
deriving DecidableEq, Repr

/-- The sort key order used by `df.sort_values(group_cols + [sort_col])`:
lexicographic on (entity key, gameDate), non-strict. -/
def rowLe (a b : Row) : Prop :=
  a.team < b.team ∨ (a.team = b.team ∧ a.gameDate ≤ b.gameDate)

instance : DecidableRel rowLe := fun a b => by
  unfold rowLe; infer_instance

instance : IsTotal Row rowLe where
  total a b := by
    unfold rowLe
    rcases Nat.lt_trichotomy a.team b.team with h | h | h
    · exact Or.inl (Or.inl h)
    · rcases Nat.le_total a.gameDate b.gameDate with h2 | h2
      · exact Or.inl (Or.inr ⟨h, h2⟩)
      · exact Or.inr (Or.inr ⟨h.symm, h2⟩)
    · exact Or.inr (Or.inl h)

instance : IsTrans Row rowLe where
  trans a b c hab hbc := by
    unfold rowLe at *
    rcases hab with h1 | ⟨e1, d1⟩
    · rcases hbc with h2 | ⟨e2, d2⟩
      · exact Or.inl (h1.trans h2)
      · exact Or.inl (e2 ▸ h1)
    · rcases hbc with h2 | ⟨e2, d2⟩
      · exact Or.inl (e1 ▸ h2)
      · exact Or.inr ⟨e1.trans e2, d1.trans d2⟩

/-- `df.sort_values(group_cols + [sort_col])`. -/
def sortRows (rows : List Row) : List Row :=
  List.insertionSort rowLe rows

/-! ### `shift(1).rolling(w, min_periods=1).mean()` on one group's series -/

/-- pandas `Series.shift(1)`: prepend a missing value, keep the length. -/
def shift1 (xs : List ℚ) : List (Option ℚ) :=
  (none :: xs.map some).take xs.length

/-- The raw window that `rolling(w)` sees at position `k`:
entries `k+1-w .. k` of the (shifted) series. -/
def windowAt (w : Nat) (s : List (Option ℚ)) (k : Nat) : List (Option ℚ) :=
  (s.take (k + 1)).drop (k + 1 - w)

/-- pandas `rolling(w, min_periods=1).mean()` over a series with missing
values: at each position, average the non-missing entries of the window;
if there are none, the result is missing. -/
def rollMeanMin1 (w : Nat) (s : List (Option ℚ)) : List (Option ℚ) :=
  (List.range s.length).map (fun k =>
    let vs := (windowAt w s k).filterMap id
    if vs.isEmpty then none else some (vs.sum / (vs.length : ℚ)))

/-- `x.shift(1).rolling(w, min_periods=1).mean()` on one group's value
series, as applied inside `rolling_features`. -/
def shiftRollMean (w : Nat) (xs : List ℚ) : List (Option ℚ) :=
  rollMeanMin1 w (shift1 xs)

/-! ### `rolling_features` itself

After sorting, `df.groupby(group_cols, sort=False)[c]` splits the column
into per-entity subsequences (order preserved), applies the shifted rolling
mean to each, and writes the results back to the corresponding rows. -/

/-- The value series of entity `t`'s group inside the sorted table. -/
def groupVals (s : List Row) (t : Nat) : List ℚ :=
  (s.filter (fun r => r.team == t)).map Row.value

/-- The position of sorted-table row `i` inside its entity's group series:
the number of earlier rows of the same entity. -/
def posInGroup (s : List Row) (i : Nat) (t : Nat) : Nat :=
  ((s.take i).filter (fun r => r.team == t)).length

/-- The rolling-feature value written back to sorted-table row `i`. -/
def featAt (w : Nat) (s : List Row) (i : Nat) : Option ℚ :=
  match s[i]? with
  | none => none
  | some r => ((shiftRollMean w (groupVals s r.team))[posInGroup s i r.team]?).join

/-- `rolling_features` for one value column and one window length `w`:
sort by (entity, gameDate), then attach to each row (at its sorted
position) the mean of its own entity's shifted value series over the
trailing window, as `groupby(...)[c].apply(...)` writes it back. -/
def rolling_features (w : Nat) (rows : List Row) : List (Row × Option ℚ) :=
  (sortRows rows).enum.map (fun p => (p.2, featAt w (sortRows rows) p.1))

/-! ### Spec-side description of the rolling feature

For the refinement claim, a second definition follows the specification's
words: the feature of a game is the mean of the last `min(w, k)` values
of the same entity's strictly earlier games in `gameDate` order, and is
missing when there is no earlier game. -/

/-- The last `w` entries of a list. -/
def lastN (w : Nat) (l : List ℚ) : List ℚ :=
  l.drop (l.length - w)

/-- The values of the games of `r`'s entity strictly before `r` in
`gameDate` order. -/
def priorVals (rows : List Row) (r : Row) : List ℚ :=
  ((sortRows rows).filter (fun x => x.team == r.team && x.gameDate < r.gameDate)).map Row.value

/-- Modelled from the spec's wording: the rolling feature a game should
get — the mean of the `min(w, k)` immediately preceding values, `none` for
an entity's first game. -/
def specFeature (w : Nat) (rows : List Row) (r : Row) : Option ℚ :=
  let pv := lastN w (priorVals rows r)
  if pv.isEmpty then none else some (pv.sum / (pv.length : ℚ))

/-! ### `per60` -/

/-- One cell of `60.0 * x / toi.replace(0, np.nan)`: a zero or missing
ice-time, or a missing count, yields a missing rate. -/
def per60cell (x toi : Option ℚ) : Option ℚ :=
  match x, toi with
  | some xv, some tv => if tv = 0 then none else some (60 * xv / tv)
  | _, _ => none

/-- `per60(df, num_col, toi_col)`: `df[num_col]` / `df[toi_col]` raise a
`KeyError` when the column is absent (`none`); otherwise the rate is
computed cell-wise. -/
def per60 (numCol toiCol : Option (List (Option ℚ))) :
    Except String (List (Option ℚ)) :=
  match numCol, toiCol with
  | some xs, some ts => .ok ((xs.zip ts).map (fun p => per60cell p.1 p.2))
  | _, _ => .error "KeyError"

/-! ### Upcoming-game projector (07, lines 173–184) -/

/-- The six per-leg model predictions produced by `predict_team`. -/
structure TeamPreds where
  y_goalsFor : ℚ
  y_goalsAgainst : ℚ
  y_shotsOnGoalFor : ℚ
  y_shotsOnGoalAgainst : ℚ
  y_xGoalsFor : ℚ
  y_xGoalsAgainst : ℚ
deriving DecidableEq, Repr

/-- The projection columns written to the output table. -/
structure GameProjection where
  home_goals : ℚ
  away_goals : ℚ
  home_sog : ℚ
  away_sog : ℚ
  home_xg : ℚ
  away_xg : ℚ
  proj_total_goals : ℚ
  proj_total_sog : ℚ
deriving DecidableEq, Repr

/-- The blending step of `07_project_upcoming_games_team.py` `main`:
each side's projection is `0.5 * own for-prediction + 0.5 * opponent
against-prediction`, and the totals add the two sides. -/
def projectGame (hp ap : TeamPreds) : GameProjection :=
  let hg := 0.5 * hp.y_goalsFor + 0.5 * ap.y_goalsAgainst
  let ag := 0.5 * ap.y_goalsFor + 0.5 * hp.y_goalsAgainst
  let hs := 0.5 * hp.y_shotsOnGoalFor + 0.5 * ap.y_shotsOnGoalAgainst
  let a2 := 0.5 * ap.y_shotsOnGoalFor + 0.5 * hp.y_shotsOnGoalAgainst
  let hx := 0.5 * hp.y_xGoalsFor + 0.5 * ap.y_xGoalsAgainst
  let ax := 0.5 * ap.y_xGoalsFor + 0.5 * hp.y_xGoalsAgainst
  ⟨hg, ag, hs, a2, hx, ax, hg + ag, hs + a2⟩

/-! ### Team-code normalization (`common.py` `TEAM_MAP`, 04 lines 63–67) -/

/-- `TEAM_MAP = {"LA": "LAK", "NJ": "NJD", "SJ": "SJS", "TB": "TBL", "WAS": "WSH"}`. -/
def TEAM_MAP : List (String × String) :=
  [("LA", "LAK"), ("NJ", "NJD"), ("SJ", "SJS"), ("TB", "TBL"), ("WAS", "WSH")]

/-- Python `str.strip()` on the character list: drop leading and trailing
whitespace. -/
def stripChars (l : List Char) : List Char :=
  ((l.dropWhile Char.isWhitespace).reverse.dropWhile Char.isWhitespace).reverse

/-- Python `str.strip()` on a string. -/
def stripStr (s : String) : String :=
  String.mk (stripChars s.data)

/-- Python `str.lower()` on a string (character-wise). -/
def lowerStr (s : String) : String :=
  String.mk (s.data.map Char.toLower)

/-- One cell of `col.astype(str).str.strip().replace(TEAM_MAP)`:
strip whitespace, then replace a whole-cell match of a map key by the mapped
value, leaving unmatched codes unchanged. -/
def normalizeTeamCode (s : String) : String :=
  let t := stripStr s
  match TEAM_MAP.lookup t with
  | some v => v
  | none => t

/-! ### Column-keyed DataFrame model

Where column structure matters, a DataFrame is an association list from
column names to value lists (all cells as strings). -/

/-- A DataFrame as an ordered association list of (column name, values). -/
abbrev DF := List (String × List String)

def hasCol (df : DF) (c : String) : Bool :=
  (df.lookup c).isSome

def getCol (df : DF) (c : String) : Option (List String) :=
  df.lookup c

/-- `df[c] = vs`: overwrite column `c` if present, else append it. -/
def setCol (df : DF) (c : String) (vs : List String) : DF :=
  if hasCol df c then df.map (fun p => if p.1 = c then (c, vs) else p)
  else df ++ [(c, vs)]

/-- `df[c] = df[c].map(f)`. -/
def mapCol (df : DF) (c : String) (f : String → String) : DF :=
  df.map (fun p => if p.1 = c then (p.1, p.2.map f) else p)

/-- The team-code normalization loop of 04 `main` (lines 63–67): apply
`normalizeTeamCode` cell-wise to the `team` and `team_opp` columns of a
table when they are present. -/
def normalize_team_codes (df : DF) : DF :=
  let df1 := if hasCol df "team" then mapCol df "team" normalizeTeamCode else df
  if hasCol df1 "team_opp" then mapCol df1 "team_opp" normalizeTeamCode else df1

/-- The number of rows of the table (length of its columns). -/
def nrows (df : DF) : Nat :=
  match df with
  | [] => 0
  | p :: _ => p.2.length

/-- All columns have the table's row count. -/
def Wellformed (df : DF) : Prop :=
  ∀ p ∈ df, p.2.length = nrows df

/-- `first_existing_col(df, candidates)` from `common.py`. -/
def first_existing_col (df : DF) (cands : List String) : Option String :=
  cands.find? (fun c => hasCol df c)

/-- The `if "x" not in df.columns: try aliases` pattern of
`standardize_team_game_cols`. -/
def copyColIfMissing (df : DF) (target : String) (cands : List String) : DF :=
  if hasCol df target then df
  else
    match first_existing_col df cands with
    | some c => setCol df target ((getCol df c).getD [])
    | none => df

/-- The `gameDate` step of `standardize_team_game_cols`: parse the
`gameDate` column in place, or build it from the `date` column. -/
def std_gameDate (pd : String → String) (df : DF) : DF :=
  if hasCol df "gameDate" then mapCol df "gameDate" pd
  else
    match first_existing_col df ["date"] with
    | some c => setCol df "gameDate" (((getCol df c).getD []).map pd)
    | none => df

/-- The `situation` step of `standardize_team_game_cols` (lines 131–134):
`if "situation" not in df.columns: df["situation"] = "all"`. -/
def std_situation (df : DF) : DF :=
  if hasCol df "situation" then df
  else setCol df "situation" (List.replicate (nrows df) "all")

/-- `standardize_team_game_cols` from `common.py` (lines 101–134), with the
date parser `pd` abstracted (it maps each `gameDate` cell; its content is
irrelevant to the claims proved here). -/
def standardize_team_game_cols (pd : String → String) (df : DF) : DF :=
  std_situation
    (copyColIfMissing
      (std_gameDate pd
        (copyColIfMissing
          (copyColIfMissing
            (copyColIfMissing df "team" ["playerTeam", "teamAbbrev", "teamCode"])
            "team_opp" ["opposingTeam", "opponentTeam", "oppTeam", "opponent"])
          "gameId" ["game_id", "gamePk", "id"]))
      "home_or_away" ["homeOrAway", "homeAway"])

/-- Keep the entries of `vs` whose mask bit is true. -/
def applyMask (mask : List Bool) (vs : List String) : List String :=
  ((vs.zip mask).filter (fun p => p.2)).map (fun p => p.1)

/-- The downstream filter
`df[df["situation"].astype(str).str.lower().eq("all")]`
(`01_moneypuck_scrape.py` line 71); a missing `situation` column raises. -/
def filter_situation_all (df : DF) : Option DF :=
  match getCol df "situation" with
  | none => none
  | some sv =>
      let mask := sv.map (fun s => lowerStr s == "all")
      some (df.map (fun p => (p.1, applyMask mask p.2)))

/-! ### Required-column checks of the feature build (04, `main`) -/

/-- `pick_col(df, candidates)` over the table's column-name list. -/
def pick_col (cols : List String) (cands : List String) : Option String :=
  cands.find? (fun c => cols.contains c)

def pidCandidates : List String := ["playerId", "player_id", "id", "nhlPlayerId"]

def toiCandidates : List String := ["icetime_min", "icetime", "timeOnIce", "toi"]

/-- 04 lines 109–112: the skater build aborts when no playerId alias or no
ice-time alias is present. -/
def skaterRequiredCheck (cols : List String) : Except String Unit :=
  if (pick_col cols pidCandidates).isNone ∨ (pick_col cols toiCandidates).isNone then
    .error "Skater playerId or TOI column not found."
  else .ok ()

/-- 04 lines 143–146: the goalie build aborts only when no playerId alias is
present (a missing ice-time alias is tolerated). -/
def goalieRequiredCheck (cols : List String) : Except String Unit :=
  if (pick_col cols pidCandidates).isNone then
    .error "Goalie playerId column not found."
  else .ok ()

/-! ### Trainer/selector (06, `main`) -/

/-- A model-table row for the trainer: its season (missing after
`to_numeric` coercion failure is `none`) and the values of the `y_` target
columns, indexed by position. -/
structure TRow where
  season : Option Int
  targets : List (Option ℚ)
deriving DecidableEq, Repr

/-- The value of target column `j` in row `r` (missing if the column index
is out of range). -/
def tval (r : TRow) (j : Nat) : Option ℚ :=
  (r.targets[j]?).getD none

/-- `df.dropna(subset=["season"])`. -/
def dropnaSeason (rows : List TRow) : List TRow :=
  rows.filter (fun r => r.season.isSome)

/-- The seasons present in the table. -/
def seasonsOf (rows : List TRow) : List Int :=
  rows.filterMap TRow.season

/-- Whether a row's (non-missing) season satisfies `p`. -/
def seasonTest (p : Int → Bool) (r : TRow) : Bool :=
  match r.season with
  | some s => p s
  | none => false

/-- One iteration of the per-target loop of 06 `main` (lines 87–123):
drop rows with a missing target, split into `season < holdout` /
`season == holdout`, and skip (no artifact) when either split is empty.
Returns the (train, test) split actually used, `none` when skipped. -/
def processTarget (rows : List TRow) (hs : Int) (j : Nat) :
    Option (List TRow × List TRow) :=
  let d := rows.filter (fun r => (tval r j).isSome)
  let train := d.filter (seasonTest (fun s => s < hs))
  let test := d.filter (seasonTest (fun s => s == hs))
  if train.isEmpty ∨ test.isEmpty then none else some (train, test)

/-- The trainer's season handling and per-target loop: drop missing
seasons, take the maximum season as the holdout season (an empty season
column makes `int(df["season"].max())` raise, hence `none`), then process
the targets independently. -/
def train_models (rows : List TRow) (ntargets : Nat) :
    Option (List (Option (List TRow × List TRow))) :=
  let rows1 := dropnaSeason rows
  match (seasonsOf rows1).max? with
  | none => none
  | some hs => some ((List.range ntargets).map (fun j => processTarget rows1 hs j))

/-- One step of the best-model selection loop of 06 `main` (lines
101–119): with `best = None` the running `best_mae` is the initial `1e18`,
and a candidate with a strictly smaller MAE replaces the current best. -/
def selStep (best : Option (String × ℚ)) (c : String × ℚ) : Option (String × ℚ) :=
  match best with
  | none => if c.2 < 1000000000000000000 then some c else none
  | some b => if c.2 < b.2 then some c else some b

/-- The best-model selection loop over the candidate strategies, in
iteration order (`ridge`, `hgb`, `rf`), paired with their holdout MAEs. -/
def selectBest (cands : List (String × ℚ)) : Option (String × ℚ) :=
  cands.foldl selStep none

/-- The report rows appended for one target (06 lines 109–114): one row per
evaluated (target, strategy) pair, carrying the strategy's holdout MAE. -/
def reportRowsFor (y : String) (evals : List (String × ℚ)) :
    List (String × String × ℚ) :=
  evals.map (fun c => (y, c.1, c.2))

/-! ### Model-table assembler left join (05, lines 59–63 and 81–86) -/

/-- A feature-table row: its join key (gameId, entity) and its feature
payload. -/
structure FeatRow where
  gameId : Nat
  team : Nat
  feat : ℚ
deriving DecidableEq, Repr

/-- A raw game-table row: the same join key plus the target value. -/
structure TargetRow where
  gameId : Nat
  team : Nat
  target : ℚ
deriving DecidableEq, Repr

/-- `feat.merge(game[keys + [target]], on=keys, how="left")`: every feature
row is kept; it is paired with each matching game row's target, or with a
missing target when no game row matches. -/
def left_join_targets (feat : List FeatRow) (game : List TargetRow) :
    List (FeatRow × Option ℚ) :=
  feat.flatMap (fun f =>
    let ms := game.filter (fun g => g.gameId == f.gameId && g.team == f.team)
    match ms with
    | [] => [(f, none)]
    | _ => ms.map (fun g => (f, some g.target)))

instance : Std.Antisymm ((· : Int) ≤ ·) :=
  ⟨@fun _ _ h1 h2 => le_antisymm h1 h2⟩

/-! ## Theorems -/

/-- C3: for every scheduled game with both teams' predictions, each side's
projected goals, shots on goal and expected goals equal the unweighted
average of that side's for-prediction and the opposing side's
against-prediction, the projected totals are the sums of the two sides,
and in particular home goalsFor-prediction 3.1 with away
goalsAgainst-prediction 2.9 yields projected home goals exactly 3.0. -/
theorem projector_blending :
    (∀ hp ap : TeamPreds,
      (projectGame hp ap).home_goals = (hp.y_goalsFor + ap.y_goalsAgainst) / 2 ∧
      (projectGame hp ap).away_goals = (ap.y_goalsFor + hp.y_goalsAgainst) / 2 ∧
      (projectGame hp ap).home_sog = (hp.y_shotsOnGoalFor + ap.y_shotsOnGoalAgainst) / 2 ∧
      (projectGame hp ap).away_sog = (ap.y_shotsOnGoalFor + hp.y_shotsOnGoalAgainst) / 2 ∧
      (projectGame hp ap).home_xg = (hp.y_xGoalsFor + ap.y_xGoalsAgainst) / 2 ∧
      (projectGame hp ap).away_xg = (ap.y_xGoalsFor + hp.y_xGoalsAgainst) / 2 ∧
      (projectGame hp ap).proj_total_goals =
        (projectGame hp ap).home_goals + (projectGame hp ap).away_goals ∧
      (projectGame hp ap).proj_total_sog =
        (projectGame hp ap).home_sog + (projectGame hp ap).away_sog) ∧
    (projectGame ⟨3.1, 0, 0, 0, 0, 0⟩ ⟨0, 2.9, 0, 0, 0, 0⟩).home_goals = 3 := by
  constructor
  · intro hp ap
    refine ⟨?_, ?_, ?_, ?_, ?_, ?_, ?_, ?_⟩ <;> simp only [projectGame] <;> ring
  · norm_num [projectGame]

/-- C5: the per-60 value of a count statistic is 60 times the count divided
by ice-time, a zero ice-time gives a missing value (never infinity or an
exception), and `per60` raises a `KeyError` when an input column is
absent. -/
theorem per60_guard :
    (∀ xs ts : List (Option ℚ), ∃ l, per60 (some xs) (some ts) = .ok l ∧
        ∀ (i : Nat) (x t : Option ℚ),
          xs[i]? = some x → ts[i]? = some t → l[i]? = some (per60cell x t)) ∧
    (∀ x t : ℚ, t ≠ 0 → per60cell (some x) (some t) = some (60 * x / t)) ∧
    (∀ x : Option ℚ, per60cell x (some 0) = none) ∧
    (∀ c, per60 none c = .error "KeyError") ∧
    (∀ xs, per60 (some xs) none = .error "KeyError") := by
  refine ⟨?_, ?_, ?_, ?_, ?_⟩
  · intro xs ts
    refine ⟨_, rfl, ?_⟩
    intro i x t hx ht
    have hz : (xs.zip ts)[i]? = some (x, t) := by
      simp [List.getElem?_zip_eq_some, hx, ht]
    simp [List.getElem?_map, hz]
  · intro x t ht; simp [per60cell, ht]
  · intro x; cases x <;> simp [per60cell]
  · intro c; cases c <;> rfl
  · intro xs; rfl

/-- Witness for C5 at a concrete input: ice-time 2 minutes and count 1
give rate `60 * 1 / 2`. -/
theorem per60_guard_witness :
    ((2 : ℚ) ≠ 0) ∧ per60cell (some 1) (some 2) = some (60 * 1 / 2) :=
  ⟨by norm_num, per60_guard.2.1 1 2 (by norm_num)⟩

/-- C6 counterexample: a goalie table exposing a playerId alias but no
ice-time alias passes the goalie required-column check — the feature build
does not abort, contradicting the claim that a missing ice-time alias is
fatal for every player-level table.  (The same columns do abort the
skater build.) -/
theorem goalie_toi_not_required :
    goalieRequiredCheck ["playerId", "goalsAgainst"] = .ok () ∧
    pick_col ["playerId", "goalsAgainst"] toiCandidates = none ∧
    skaterRequiredCheck ["playerId", "goalsAgainst"] =
      .error "Skater playerId or TOI column not found." :=
  ⟨rfl, rfl, rfl⟩

/-- C6 amended: the skater build aborts exactly when no playerId alias or
no ice-time alias is present; the goalie build aborts exactly when no
playerId alias is present (its ice-time is optional); the presence of any
other column is irrelevant to both checks. -/
theorem required_column_fatality (cols : List String) :
    (skaterRequiredCheck cols = .ok () ↔
      (pick_col cols pidCandidates).isSome ∧ (pick_col cols toiCandidates).isSome) ∧
    (goalieRequiredCheck cols = .ok () ↔ (pick_col cols pidCandidates).isSome) := by
  constructor
  · cases h1 : pick_col cols pidCandidates <;>
      cases h2 : pick_col cols toiCandidates <;>
        simp [skaterRequiredCheck, h1, h2]
  · cases h1 : pick_col cols pidCandidates <;>
      simp [goalieRequiredCheck, h1]

/-! ### DataFrame column lemmas -/

theorem lookup_map_apply (df : DF) (h : String → List String → List String)
    (c : String) :
    (df.map (fun p => (p.1, h p.1 p.2))).lookup c = (df.lookup c).map (h c) := by
  induction df with
  | nil => rfl
  | cons p rest ih =>
    obtain ⟨k, v⟩ := p
    by_cases hk : c = k
    · subst hk
      simp [List.lookup_cons]
    · have hb : (c == k) = false := by simp [hk]
      simp [List.lookup_cons, hb, ih]

theorem mapCol_eq_map (df : DF) (c : String) (f : String → String) :
    mapCol df c f = df.map (fun p => (p.1, if p.1 = c then p.2.map f else p.2)) := by
  unfold mapCol
  apply List.map_congr_left
  intro p _
  by_cases h : p.1 = c
  · simp [h]
  · simp [h]

theorem getCol_mapCol_self (df : DF) (c : String) (f : String → String) :
    getCol (mapCol df c f) c = (getCol df c).map (List.map f) := by
  rw [getCol, mapCol_eq_map,
    lookup_map_apply df (fun k v => if k = c then v.map f else v) c]
  simp [getCol]

theorem getCol_mapCol_ne (df : DF) {c c' : String} (f : String → String) (h : c' ≠ c) :
    getCol (mapCol df c f) c' = getCol df c' := by
  rw [getCol, mapCol_eq_map,
    lookup_map_apply df (fun k v => if k = c then v.map f else v) c']
  simp [getCol, h]

theorem setCol_eq_of_hasCol (df : DF) (c : String) (vs : List String)
    (h : hasCol df c = true) :
    setCol df c vs = df.map (fun p => (p.1, if p.1 = c then vs else p.2)) := by
  unfold setCol
  rw [if_pos h]
  apply List.map_congr_left
  intro p _
  by_cases hp : p.1 = c
  · simp [hp]
  · simp [hp]

theorem getCol_setCol_self (df : DF) (c : String) (vs : List String) :
    getCol (setCol df c vs) c = some vs := by
  by_cases h : hasCol df c
  · rw [getCol, setCol_eq_of_hasCol df c vs h,
      lookup_map_apply df (fun k v => if k = c then vs else v) c]
    unfold hasCol at h
    obtain ⟨v, hv⟩ := Option.isSome_iff_exists.mp h
    simp [hv]
  · rw [getCol, setCol, if_neg h, List.lookup_append]
    unfold hasCol at h
    cases hl : List.lookup c df with
    | none => simp
    | some v => rw [hl] at h; simp at h

theorem getCol_setCol_ne (df : DF) {c c' : String} (vs : List String) (h : c' ≠ c) :
    getCol (setCol df c vs) c' = getCol df c' := by
  by_cases hc : hasCol df c
  · rw [getCol, setCol_eq_of_hasCol df c vs hc,
      lookup_map_apply df (fun k v => if k = c then vs else v) c']
    simp [getCol, h]
  · rw [getCol, setCol, if_neg hc, List.lookup_append]
    have hb : (c' == c) = false := by simp [h]
    simp [List.lookup_cons, hb, getCol]

theorem getCol_eq_none_of_not_hasCol (df : DF) (c : String)
    (h : hasCol df c = false) : getCol df c = none := by
  unfold hasCol at h
  cases hg : getCol df c with
  | none => rfl
  | some v =>
    unfold getCol at hg
    rw [hg] at h
    simp at h

/-- C9: the fixed alias map sends LA to LAK, NJ to NJD, SJ to SJS, TB to
TBL and WAS to WSH; a (stripped) code outside the map is unchanged; and
the normalization is applied independently to the `team` and `team_opp`
columns of an input table. -/
theorem team_code_normalization :
    normalizeTeamCode "LA" = "LAK" ∧ normalizeTeamCode "NJ" = "NJD" ∧
    normalizeTeamCode "SJ" = "SJS" ∧ normalizeTeamCode "TB" = "TBL" ∧
    normalizeTeamCode "WAS" = "WSH" ∧
    (∀ s : String, stripStr s = s → TEAM_MAP.lookup s = none → normalizeTeamCode s = s) ∧
    (∀ df : DF,
      getCol (normalize_team_codes df) "team" =
        (getCol df "team").map (List.map normalizeTeamCode) ∧
      getCol (normalize_team_codes df) "team_opp" =
        (getCol df "team_opp").map (List.map normalizeTeamCode)) := by
  refine ⟨by decide, by decide, by decide, by decide, by decide, ?_, ?_⟩
  · intro s hs hl
    unfold normalizeTeamCode
    rw [hs]
    simp only [hl]
  · intro df
    constructor
    · unfold normalize_team_codes
      by_cases h1 : hasCol df "team"
      · rw [if_pos h1]
        by_cases h2 : hasCol (mapCol df "team" normalizeTeamCode) "team_opp"
        · rw [if_pos h2, getCol_mapCol_ne _ _ (by decide), getCol_mapCol_self]
        · rw [if_neg h2, getCol_mapCol_self]
      · rw [if_neg h1]
        rw [getCol_eq_none_of_not_hasCol df "team" (by simpa using h1)]
        by_cases h2 : hasCol df "team_opp"
        · rw [if_pos h2, getCol_mapCol_ne _ _ (by decide),
            getCol_eq_none_of_not_hasCol df "team" (by simpa using h1)]
          rfl
        · rw [if_neg h2, getCol_eq_none_of_not_hasCol df "team" (by simpa using h1)]
          rfl
    · unfold normalize_team_codes
      by_cases h1 : hasCol df "team"
      · rw [if_pos h1]
        by_cases h2 : hasCol (mapCol df "team" normalizeTeamCode) "team_opp"
        · rw [if_pos h2, getCol_mapCol_self, getCol_mapCol_ne _ _ (by decide)]
        · rw [if_neg h2]
          have h3 := getCol_eq_none_of_not_hasCol (mapCol df "team" normalizeTeamCode)
            "team_opp" (by simpa using h2)
          rw [getCol_mapCol_ne _ _ (by decide)] at h3
          rw [getCol_mapCol_ne _ _ (by decide), h3]
          rfl
      · rw [if_neg h1]
        by_cases h2 : hasCol df "team_opp"
        · rw [if_pos h2, getCol_mapCol_self]
        · rw [if_neg h2, getCol_eq_none_of_not_hasCol df "team_opp" (by simpa using h2)]
          rfl

/-- Witness for C9 at a concrete input: the code "BOS" is not in the alias
map and is left unchanged. -/
theorem team_code_normalization_witness :
    (stripStr "BOS" = "BOS" ∧ TEAM_MAP.lookup "BOS" = none) ∧
    normalizeTeamCode "BOS" = "BOS" :=
  ⟨⟨by decide, by decide⟩,
    team_code_normalization.2.2.2.2.2.1 "BOS" (by decide) (by decide)⟩

/-! ### Lemmas for the situation-default claim -/

theorem getCol_length_of_wellformed {df : DF} {c : String} {l : List String}
    (hw : Wellformed df) (h : getCol df c = some l) : l.length = nrows df := by
  unfold getCol at h
  rw [List.lookup_eq_some_iff] at h
  obtain ⟨l₁, l₂, rfl, -⟩ := h
  exact hw (c, l) (by simp)

theorem nrows_mapCol (df : DF) (c : String) (f : String → String) :
    nrows (mapCol df c f) = nrows df := by
  cases df with
  | nil => rfl
  | cons p rest =>
    by_cases h : p.1 = c <;> simp [mapCol, nrows, h]

theorem nrows_setCol (df : DF) (c : String) (vs : List String)
    (hlen : vs.length = nrows df) : nrows (setCol df c vs) = nrows df := by
  by_cases h : hasCol df c
  · rw [setCol_eq_of_hasCol df c vs h]
    cases df with
    | nil => rfl
    | cons p rest =>
      by_cases hp : p.1 = c
      · simp only [List.map_cons, nrows]
        rw [if_pos hp]
        simpa [nrows] using hlen
      · simp [nrows, hp]
  · rw [setCol, if_neg h]
    cases df with
    | nil =>
      have hv : vs = [] := by simpa [nrows, List.length_eq_zero] using hlen
      subst hv
      rfl
    | cons p rest => rfl

theorem nrows_setCol_of_ne_nil (df : DF) (c : String) (vs : List String)
    (hdf : df ≠ []) (h : hasCol df c = false) : nrows (setCol df c vs) = nrows df := by
  rw [setCol, if_neg (by simp [h])]
  cases df with
  | nil => exact absurd rfl hdf
  | cons p rest => rfl

theorem ne_nil_of_hasCol {df : DF} {c : String} (h : hasCol df c = true) : df ≠ [] := by
  intro he
  subst he
  simp [hasCol] at h

theorem hasCol_of_first_existing_col {df : DF} {cands : List String} {c : String}
    (hf : first_existing_col df cands = some c) : hasCol df c = true := by
  unfold first_existing_col at hf
  simpa using List.find?_some hf

theorem nrows_copyColIfMissing (df : DF) (t : String) (cands : List String) :
    nrows (copyColIfMissing df t cands) = nrows df := by
  unfold copyColIfMissing
  by_cases h : hasCol df t
  · rw [if_pos h]
  · rw [if_neg h]
    cases hf : first_existing_col df cands with
    | none => rfl
    | some c =>
      exact nrows_setCol_of_ne_nil df t _
        (ne_nil_of_hasCol (hasCol_of_first_existing_col hf)) (by simpa using h)

theorem wellformed_mapCol {df : DF} (c : String) (f : String → String)
    (hw : Wellformed df) : Wellformed (mapCol df c f) := by
  intro p hp
  rw [nrows_mapCol]
  unfold mapCol at hp
  obtain ⟨q, hq, rfl⟩ := List.mem_map.mp hp
  by_cases h : q.1 = c <;> simp [h, hw q hq]

theorem wellformed_setCol {df : DF} (c : String) (vs : List String)
    (hw : Wellformed df) (hlen : vs.length = nrows df) :
    Wellformed (setCol df c vs) := by
  intro p hp
  rw [nrows_setCol df c vs hlen]
  by_cases h : hasCol df c
  · rw [setCol_eq_of_hasCol df c vs h] at hp
    obtain ⟨q, hq, rfl⟩ := List.mem_map.mp hp
    by_cases hqc : q.1 = c <;> simp [hqc, hw q hq, hlen]
  · rw [setCol, if_neg h] at hp
    rcases List.mem_append.mp hp with h1 | h1
    · exact hw p h1
    · simp at h1
      subst h1
      exact hlen

theorem wellformed_copyColIfMissing {df : DF} (t : String) (cands : List String)
    (hw : Wellformed df) : Wellformed (copyColIfMissing df t cands) := by
  unfold copyColIfMissing
  by_cases h : hasCol df t
  · rw [if_pos h]
    exact hw
  · rw [if_neg h]
    cases hf : first_existing_col df cands with
    | none => exact hw
    | some c =>
      have hc : hasCol df c = true := hasCol_of_first_existing_col hf
      obtain ⟨l, hl⟩ := Option.isSome_iff_exists.mp hc
      have hgl : getCol df c = some l := hl
      apply wellformed_setCol t _ hw
      simp [hgl, getCol_length_of_wellformed hw hgl]

theorem getCol_copyColIfMissing_ne (df : DF) (t : String) (cands : List String)
    {c' : String} (h : c' ≠ t) :
    getCol (copyColIfMissing df t cands) c' = getCol df c' := by
  unfold copyColIfMissing
  by_cases h1 : hasCol df t
  · rw [if_pos h1]
  · rw [if_neg h1]
    cases hf : first_existing_col df cands with
    | none => rfl
    | some c => rw [getCol_setCol_ne _ _ h]

theorem getCol_std_gameDate_ne (pd : String → String) (df : DF) {c' : String}
    (h : c' ≠ "gameDate") :
    getCol (std_gameDate pd df) c' = getCol df c' := by
  unfold std_gameDate
  by_cases h1 : hasCol df "gameDate"
  · rw [if_pos h1, getCol_mapCol_ne _ _ h]
  · rw [if_neg h1]
    cases hf : first_existing_col df ["date"] with
    | none => rfl
    | some c => rw [getCol_setCol_ne _ _ h]

theorem nrows_std_gameDate (pd : String → String) (df : DF) :
    nrows (std_gameDate pd df) = nrows df := by
  unfold std_gameDate
  by_cases h1 : hasCol df "gameDate"
  · rw [if_pos h1, nrows_mapCol]
  · rw [if_neg h1]
    cases hf : first_existing_col df ["date"] with
    | none => rfl
    | some c =>
      exact nrows_setCol_of_ne_nil _ _ _
        (ne_nil_of_hasCol (hasCol_of_first_existing_col hf)) (by simpa using h1)

theorem wellformed_std_gameDate (pd : String → String) {df : DF}
    (hw : Wellformed df) : Wellformed (std_gameDate pd df) := by
  unfold std_gameDate
  by_cases h1 : hasCol df "gameDate"
  · rw [if_pos h1]
    exact wellformed_mapCol _ _ hw
  · rw [if_neg h1]
    cases hf : first_existing_col df ["date"] with
    | none => exact hw
    | some c =>
      have hc := hasCol_of_first_existing_col hf
      obtain ⟨l, hl⟩ := Option.isSome_iff_exists.mp hc
      have hgl : getCol df c = some l := hl
      apply wellformed_setCol _ _ hw
      simp [hgl, getCol_length_of_wellformed hw hgl]

theorem applyMask_replicate_true (vs : List String) :
    applyMask (List.replicate vs.length true) vs = vs := by
  induction vs with
  | nil => rfl
  | cons v rest ih =>
    simp only [List.length_cons, List.replicate_succ]
    simp only [applyMask] at ih ⊢
    simp [ih]

theorem applyMask_of_length {n : Nat} {vs : List String}
    (h : vs.length = n) : applyMask (List.replicate n true) vs = vs := by
  subst h
  exact applyMask_replicate_true vs

/-- C10: `standardize_team_game_cols` always outputs a table with a
`situation` column; when the input lacks one, every row receives the value
"all", and the downstream `situation == "all"` filter keeps every row of
the standardized table rather than dropping rows or raising. -/
theorem situation_default (pd : String → String) (df : DF) :
    hasCol (standardize_team_game_cols pd df) "situation" = true ∧
    (hasCol df "situation" = false →
      getCol (standardize_team_game_cols pd df) "situation" =
        some (List.replicate (nrows df) "all")) ∧
    (Wellformed df → hasCol df "situation" = false →
      filter_situation_all (standardize_team_game_cols pd df) =
        some (standardize_team_game_cols pd df)) := by
  set df1 := copyColIfMissing df "team" ["playerTeam", "teamAbbrev", "teamCode"] with hdf1
  set df2 := copyColIfMissing df1 "team_opp"
    ["opposingTeam", "opponentTeam", "oppTeam", "opponent"] with hdf2
  set df3 := copyColIfMissing df2 "gameId" ["game_id", "gamePk", "id"] with hdf3
  set df4 := std_gameDate pd df3 with hdf4
  set df5 := copyColIfMissing df4 "home_or_away" ["homeOrAway", "homeAway"] with hdf5
  have hstd : standardize_team_game_cols pd df = std_situation df5 := rfl
  have hge : getCol df5 "situation" = getCol df "situation" := by
    rw [hdf5, getCol_copyColIfMissing_ne _ _ _ (by decide),
      hdf4, getCol_std_gameDate_ne _ _ (by decide),
      hdf3, getCol_copyColIfMissing_ne _ _ _ (by decide),
      hdf2, getCol_copyColIfMissing_ne _ _ _ (by decide),
      hdf1, getCol_copyColIfMissing_ne _ _ _ (by decide)]
  have hnr : nrows df5 = nrows df := by
    rw [hdf5, nrows_copyColIfMissing, hdf4, nrows_std_gameDate,
      hdf3, nrows_copyColIfMissing, hdf2, nrows_copyColIfMissing,
      hdf1, nrows_copyColIfMissing]
  refine ⟨?_, ?_, ?_⟩
  · rw [hstd]
    unfold std_situation
    by_cases hs5 : hasCol df5 "situation"
    · rw [if_pos hs5]
      exact hs5
    · rw [if_neg hs5]
      show (getCol _ _).isSome = true
      rw [getCol_setCol_self]
      rfl
  · intro h
    have hs5 : hasCol df5 "situation" = false := by
      show (getCol df5 "situation").isSome = false
      rw [hge]
      exact h
    rw [hstd]
    unfold std_situation
    rw [if_neg (by simp [hs5]), getCol_setCol_self, hnr]
  · intro hw h
    have hs5 : hasCol df5 "situation" = false := by
      show (getCol df5 "situation").isSome = false
      rw [hge]
      exact h
    have hw5 : Wellformed df5 := by
      rw [hdf5]
      apply wellformed_copyColIfMissing
      rw [hdf4]
      apply wellformed_std_gameDate
      rw [hdf3]
      apply wellformed_copyColIfMissing
      rw [hdf2]
      apply wellformed_copyColIfMissing
      rw [hdf1]
      exact wellformed_copyColIfMissing _ _ hw
    have hstd2 : standardize_team_game_cols pd df =
        setCol df5 "situation" (List.replicate (nrows df5) "all") := by
      rw [hstd]
      unfold std_situation
      rw [if_neg (by simp [hs5])]
    have hw6 : Wellformed (standardize_team_game_cols pd df) := by
      rw [hstd2]
      exact wellformed_setCol _ _ hw5 (by simp)
    have hnr6 : nrows (standardize_team_game_cols pd df) = nrows df5 := by
      rw [hstd2]
      exact nrows_setCol _ _ _ (by simp)
    have hgs : getCol (standardize_team_game_cols pd df) "situation" =
        some (List.replicate (nrows df5) "all") := by
      rw [hstd2]
      exact getCol_setCol_self _ _ _
    unfold filter_situation_all
    rw [hgs]
    simp only [List.map_replicate]
    have hlow : (lowerStr "all" == "all") = true := by decide
    rw [hlow]
    congr 1
    have hfix : ∀ p ∈ standardize_team_game_cols pd df,
        (fun p => (p.1, applyMask (List.replicate (nrows df5) true) p.2)) p = p := by
      intro p hp
      have hlen : p.2.length = nrows df5 := by
        rw [hw6 p hp, hnr6]
      simp [applyMask_of_length hlen]
    rw [List.map_congr_left hfix]
    simp

/-- Witness for C10 at a concrete input: a two-row table with only a
`team` column gets a `situation` column holding "all" in both rows, and
the downstream filter keeps the whole table. -/
theorem situation_default_witness :
    (Wellformed [("team", ["BOS", "TOR"])] ∧
      hasCol [("team", ["BOS", "TOR"])] "situation" = false) ∧
    getCol (standardize_team_game_cols id [("team", ["BOS", "TOR"])]) "situation" =
      some (List.replicate (nrows [("team", ["BOS", "TOR"])]) "all") ∧
    filter_situation_all (standardize_team_game_cols id [("team", ["BOS", "TOR"])]) =
      some (standardize_team_game_cols id [("team", ["BOS", "TOR"])]) :=
  ⟨⟨by unfold Wellformed; decide, by decide⟩,
    (situation_default id [("team", ["BOS", "TOR"])]).2.1 (by decide),
    (situation_default id [("team", ["BOS", "TOR"])]).2.2
      (by unfold Wellformed; decide) (by decide)⟩

/-! ### Lemmas for the join-safety claim -/

theorem filter_key_nil_or_singleton (game : List TargetRow) (f : FeatRow)
    (hu : game.Pairwise (fun a b => ¬(a.gameId = b.gameId ∧ a.team = b.team))) :
    game.filter (fun g => g.gameId == f.gameId && g.team == f.team) = [] ∨
      ∃ g, game.filter (fun g => g.gameId == f.gameId && g.team == f.team) = [g] := by
  induction hu with
  | nil => exact Or.inl rfl
  | cons hrel hpw ih =>
    rename_i g rest
    by_cases hg : (g.gameId == f.gameId && g.team == f.team) = true
    · right
      refine ⟨g, ?_⟩
      rw [List.filter_cons, if_pos hg]
      have hrest : rest.filter (fun g => g.gameId == f.gameId && g.team == f.team) = [] := by
        apply List.filter_eq_nil_iff.mpr
        intro g' hg'
        intro hmatch
        simp only [Bool.and_eq_true, beq_iff_eq] at hg hmatch
        exact hrel g' hg' ⟨hg.1.trans hmatch.1.symm, hg.2.trans hmatch.2.symm⟩
      rw [hrest]
    · rw [List.filter_cons, if_neg (by simpa using hg)]
      exact ih

/-- C4: the model-table assembler's left join on (gameId, entity) keeps
every feature row: the first components of the joined table are exactly
the feature table (in order), the row count is unchanged — provided the
raw game table has at most one row per join key, which is the GameRecord
uniqueness invariant — and a feature row with no matching game row is
retained with a missing target. -/
theorem join_safety (feat : List FeatRow) (game : List TargetRow)
    (hu : game.Pairwise (fun a b => ¬(a.gameId = b.gameId ∧ a.team = b.team))) :
    (left_join_targets feat game).map Prod.fst = feat ∧
    (left_join_targets feat game).length = feat.length ∧
    (∀ f ∈ feat,
      game.filter (fun g => g.gameId == f.gameId && g.team == f.team) = [] →
      (f, none) ∈ left_join_targets feat game) := by
  have hmap : (left_join_targets feat game).map Prod.fst = feat := by
    induction feat with
    | nil => rfl
    | cons f rest ih =>
      rw [left_join_targets, List.flatMap_cons, List.map_append]
      show _ ++ (left_join_targets rest game).map Prod.fst = _
      rw [ih]
      rcases filter_key_nil_or_singleton game f hu with hnil | ⟨g, hone⟩
      · rw [hnil]
        rfl
      · rw [hone]
        rfl
  refine ⟨hmap, ?_, ?_⟩
  · have := congrArg List.length hmap
    rwa [List.length_map] at this
  · intro f hf hnil
    rw [left_join_targets]
    apply List.mem_flatMap.mpr
    refine ⟨f, hf, ?_⟩
    rw [hnil]
    exact List.mem_singleton.mpr rfl

/-- Witness for C4 at a concrete input: two feature rows, one matching
game row; both feature rows survive the join in order. -/
theorem join_safety_witness :
    (List.Pairwise (fun a b : TargetRow => ¬(a.gameId = b.gameId ∧ a.team = b.team))
      [⟨1, 10, 3⟩]) ∧
    (left_join_targets [⟨1, 10, 5⟩, ⟨2, 10, 6⟩] [⟨1, 10, 3⟩]).map Prod.fst =
      [⟨1, 10, 5⟩, ⟨2, 10, 6⟩] :=
  ⟨by decide, (join_safety [⟨1, 10, 5⟩, ⟨2, 10, 6⟩] [⟨1, 10, 3⟩] (by decide)).1⟩

/-! ### Lemmas for the trainer split/skip claim -/

theorem filter_split_eq (rows : List TRow) (j : Nat) (p : Int → Bool) :
    ((dropnaSeason rows).filter (fun r => (tval r j).isSome)).filter (seasonTest p) =
      rows.filter (fun r => (tval r j).isSome && seasonTest p r) := by
  unfold dropnaSeason
  rw [List.filter_filter, List.filter_filter]
  apply List.filter_congr
  intro r _
  cases hr : r.season <;> simp [seasonTest, hr, Bool.and_comm]

/-- C7: with the holdout season equal to the maximum season present
(after dropping rows with a missing season), the trainer processes each
target independently; for each target, after dropping rows with a missing
target value, the training split is exactly the rows with
`season < holdout` and the holdout split exactly the rows with
`season == holdout`, and the target is skipped (no artifact) exactly when
either split is empty, without aborting the other targets. -/
theorem trainer_split_skip (rows : List TRow) (n : Nat) (hs : Int)
    (hmax : (seasonsOf (dropnaSeason rows)).max? = some hs) :
    (hs ∈ seasonsOf (dropnaSeason rows) ∧ ∀ s ∈ seasonsOf (dropnaSeason rows), s ≤ hs) ∧
    train_models rows n =
      some ((List.range n).map (fun j => processTarget (dropnaSeason rows) hs j)) ∧
    ∀ j : Nat,
      processTarget (dropnaSeason rows) hs j =
        (if (rows.filter (fun r => (tval r j).isSome && seasonTest (fun s => s < hs) r)).isEmpty
            ∨ (rows.filter (fun r => (tval r j).isSome && seasonTest (fun s => s == hs) r)).isEmpty
          then none
          else some
            (rows.filter (fun r => (tval r j).isSome && seasonTest (fun s => s < hs) r),
             rows.filter (fun r => (tval r j).isSome && seasonTest (fun s => s == hs) r))) := by
  refine ⟨?_, ?_, ?_⟩
  · rw [List.max?_eq_some_iff (fun a => le_refl a) (fun a b => max_choice a b)
      (fun a b c => max_le_iff)] at hmax
    exact hmax
  · simp only [train_models]
    rw [hmax]
  · intro j
    simp only [processTarget]
    rw [filter_split_eq rows j (fun s => s < hs), filter_split_eq rows j (fun s => s == hs)]

/-- Witness for C7 at a concrete input: two rows in seasons 2023 and 2024
with a present target; the holdout season is 2024 and the per-target loop
runs. -/
theorem trainer_split_skip_witness :
    ((seasonsOf (dropnaSeason
        ([⟨some 2023, [some 1]⟩, ⟨some 2024, [some 2]⟩] : List TRow))).max? = some 2024) ∧
    train_models ([⟨some 2023, [some 1]⟩, ⟨some 2024, [some 2]⟩] : List TRow) 1 =
      some ((List.range 1).map (fun j =>
        processTarget (dropnaSeason
          ([⟨some 2023, [some 1]⟩, ⟨some 2024, [some 2]⟩] : List TRow)) 2024 j)) :=
  ⟨by decide,
    (trainer_split_skip ([⟨some 2023, [some 1]⟩, ⟨some 2024, [some 2]⟩] : List TRow)
      1 2024 (by decide)).2.1⟩

/-! ### Lemmas for the selection-by-MAE claim -/

theorem selStep_foldl_some (l : List (String × ℚ)) (b0 : String × ℚ) :
    ∃ b, l.foldl selStep (some b0) = some b ∧ (b = b0 ∨ b ∈ l) ∧ b.2 ≤ b0.2 ∧
      ∀ c ∈ l, b.2 ≤ c.2 := by
  induction l generalizing b0 with
  | nil => exact ⟨b0, rfl, Or.inl rfl, le_refl _, by simp⟩
  | cons c l ih =>
    simp only [List.foldl_cons]
    by_cases hc : c.2 < b0.2
    · rw [show selStep (some b0) c = some c by simp [selStep, hc]]
      obtain ⟨b, hb, hmem, hle, hall⟩ := ih c
      refine ⟨b, hb, ?_, le_trans hle (le_of_lt hc), ?_⟩
      · rcases hmem with rfl | hm
        · exact Or.inr (List.mem_cons_self _ _)
        · exact Or.inr (List.mem_cons_of_mem _ hm)
      · intro d hd
        rcases List.mem_cons.mp hd with rfl | hd
        · exact hle
        · exact hall d hd
    · rw [show selStep (some b0) c = some b0 by simp [selStep, hc]]
      obtain ⟨b, hb, hmem, hle, hall⟩ := ih b0
      refine ⟨b, hb, ?_, hle, ?_⟩
      · rcases hmem with rfl | hm
        · exact Or.inl rfl
        · exact Or.inr (List.mem_cons_of_mem _ hm)
      · intro d hd
        rcases List.mem_cons.mp hd with rfl | hd
        · exact le_trans hle (not_lt.mp hc)
        · exact hall d hd

theorem selStep_foldl_none (l : List (String × ℚ))
    (h : ∃ c ∈ l, c.2 < 1000000000000000000) :
    ∃ b, l.foldl selStep none = some b ∧ b ∈ l ∧ b.2 < 1000000000000000000 ∧
      ∀ c ∈ l, b.2 ≤ c.2 := by
  induction l with
  | nil => simp at h
  | cons c l ih =>
    simp only [List.foldl_cons]
    by_cases hc : c.2 < 1000000000000000000
    · rw [show selStep none c = some c by simp [selStep, hc]]
      obtain ⟨b, hb, hmem, hle, hall⟩ := selStep_foldl_some l c
      refine ⟨b, hb, ?_, lt_of_le_of_lt hle hc, ?_⟩
      · rcases hmem with rfl | hm
        · exact List.mem_cons_self _ _
        · exact List.mem_cons_of_mem _ hm
      · intro d hd
        rcases List.mem_cons.mp hd with rfl | hd
        · exact hle
        · exact hall d hd
    · rw [show selStep none c = none by simp [selStep, hc]]
      have h' : ∃ d ∈ l, d.2 < 1000000000000000000 := by
        rcases h with ⟨d, hd, hlt⟩
        rcases List.mem_cons.mp hd with rfl | hd
        · exact absurd hlt hc
        · exact ⟨d, hd, hlt⟩
      obtain ⟨b, hb, hmem, hlt, hall⟩ := ih h'
      refine ⟨b, hb, List.mem_cons_of_mem _ hmem, hlt, ?_⟩
      intro d hd
      rcases List.mem_cons.mp hd with rfl | hd
      · exact le_trans (le_of_lt hlt) (not_lt.mp hc)
      · exact hall d hd

/-- C8: whenever some candidate's holdout MAE is below the `1e18`
sentinel, the selection loop returns a candidate with the minimum MAE
among all evaluated candidates (that candidate's fitted model is the one
persisted), and the comparison report holds exactly one row per evaluated
(target, strategy) pair. -/
theorem selection_by_mae (y : String) (cands : List (String × ℚ))
    (h : ∃ c ∈ cands, c.2 < 1000000000000000000) :
    (∃ b, selectBest cands = some b ∧ b ∈ cands ∧ ∀ c ∈ cands, b.2 ≤ c.2) ∧
    reportRowsFor y cands = cands.map (fun c => (y, c.1, c.2)) ∧
    (reportRowsFor y cands).length = cands.length := by
  refine ⟨?_, rfl, by simp [reportRowsFor]⟩
  obtain ⟨b, hb, hmem, _, hall⟩ := selStep_foldl_none cands h
  exact ⟨b, hb, hmem, hall⟩

/-- Witness for C8 at a concrete input: of the three strategies with MAEs
3, 2 and 4, the one with MAE 2 is selected and the report has three
rows. -/
theorem selection_by_mae_witness :
    (∃ c ∈ ([("ridge", 3), ("hgb", 2), ("rf", 4)] : List (String × ℚ)),
      c.2 < 1000000000000000000) ∧
    ((∃ b, selectBest [("ridge", 3), ("hgb", 2), ("rf", 4)] = some b ∧
        b ∈ ([("ridge", 3), ("hgb", 2), ("rf", 4)] : List (String × ℚ)) ∧
        ∀ c ∈ ([("ridge", 3), ("hgb", 2), ("rf", 4)] : List (String × ℚ)), b.2 ≤ c.2) ∧
      reportRowsFor "y_goalsFor" [("ridge", 3), ("hgb", 2), ("rf", 4)] =
        ([("ridge", 3), ("hgb", 2), ("rf", 4)] : List (String × ℚ)).map
          (fun c => ("y_goalsFor", c.1, c.2)) ∧
      (reportRowsFor "y_goalsFor" [("ridge", 3), ("hgb", 2), ("rf", 4)]).length =
        ([("ridge", 3), ("hgb", 2), ("rf", 4)] : List (String × ℚ)).length) :=
  ⟨by decide, selection_by_mae "y_goalsFor" [("ridge", 3), ("hgb", 2), ("rf", 4)] (by decide)⟩

/-! ### Lemmas on the shifted rolling mean -/

theorem length_shift1 (xs : List ℚ) : (shift1 xs).length = xs.length := by
  simp [shift1]

theorem length_shiftRollMean (w : Nat) (xs : List ℚ) :
    (shiftRollMean w xs).length = xs.length := by
  simp [shiftRollMean, rollMeanMin1, length_shift1]

theorem take_shift1 (xs : List ℚ) (k : Nat) (hk : k < xs.length) :
    (shift1 xs).take (k + 1) = none :: (xs.take k).map some := by
  unfold shift1
  rw [List.take_take, min_eq_left (by omega), List.take_succ_cons, List.map_take]

theorem filterMap_id_map_some (l : List ℚ) :
    List.filterMap id (l.map some) = l := by
  induction l with
  | nil => rfl
  | cons a t ih => simp [ih]

theorem window_filterMap_eq (w : Nat) (xs : List ℚ) (k : Nat)
    (hk : k < xs.length) :
    (windowAt w (shift1 xs) k).filterMap id = (xs.take k).drop (k - w) := by
  unfold windowAt
  rw [take_shift1 xs k hk]
  rcases Nat.lt_or_ge k w with hkw | hkw
  · have h0 : k + 1 - w = 0 := by omega
    have h1 : k - w = 0 := by omega
    rw [h0, h1, List.drop_zero, List.drop_zero, List.filterMap_cons]
    simp only [id]
    exact filterMap_id_map_some _
  · have h1 : k + 1 - w = (k - w) + 1 := by omega
    rw [h1, List.drop_succ_cons, ← List.map_drop]
    exact filterMap_id_map_some _

/-- The closed form of one entry of
`x.shift(1).rolling(w, min_periods=1).mean()`: missing at the first
position, else the mean of the last `min(w, k)` of the `k` preceding
values. -/
theorem shiftRollMean_getElem (w : Nat) (hw : 1 ≤ w) (xs : List ℚ) (k : Nat)
    (hk : k < xs.length) :
    (shiftRollMean w xs)[k]? =
      some (if k = 0 then none
        else some ((((xs.take k).drop (k - w)).sum) /
          ((((xs.take k).drop (k - w)).length : ℚ)))) := by
  unfold shiftRollMean rollMeanMin1
  have hrange : (List.range (shift1 xs).length)[k]? = some k :=
    List.getElem?_range (by simpa [length_shift1] using hk)
  rw [List.getElem?_map, hrange]
  simp only [Option.map]
  congr 1
  rw [window_filterMap_eq w xs k hk]
  rcases Nat.eq_zero_or_pos k with rfl | hkpos
  · simp
  · have hlen : ((xs.take k).drop (k - w)).length = k - (k - w) := by
      rw [List.length_drop, List.length_take, min_eq_left (by omega)]
    have hne : ((xs.take k).drop (k - w)).isEmpty = false := by
      cases hl : (xs.take k).drop (k - w) with
      | nil =>
        have hc := congrArg List.length hl
        rw [hlen] at hc
        simp at hc
        omega
      | cons a l => rfl
    simp only [hne, Bool.false_eq_true, if_false]
    rw [if_neg (by omega)]

/-! ### Positional lemmas on groups inside the sorted table -/

theorem drop_eq_cons_of_getElem? (s : List Row) (i : Nat) (r : Row)
    (hri : s[i]? = some r) : s.drop i = r :: s.drop (i + 1) := by
  have hlt : i < s.length := by
    by_contra hge
    rw [List.getElem?_eq_none (by omega)] at hri
    exact Option.noConfusion hri
  rw [List.drop_eq_getElem_cons hlt]
  have := List.getElem?_eq_getElem hlt
  rw [hri] at this
  rw [Option.some.injEq] at this
  rw [this]

theorem posInGroup_lt (s : List Row) (i : Nat) (r : Row) (hri : s[i]? = some r) :
    posInGroup s i r.team < (groupVals s r.team).length := by
  unfold posInGroup groupVals
  rw [List.length_map]
  have hsplit : s.filter (fun x => x.team == r.team) =
      (s.take i).filter (fun x => x.team == r.team) ++
        (s.drop i).filter (fun x => x.team == r.team) := by
    conv_lhs => rw [← List.take_append_drop i s]
    rw [List.filter_append]
  rw [hsplit, List.length_append]
  have hne : (s.drop i).filter (fun x => x.team == r.team) ≠ [] := by
    rw [drop_eq_cons_of_getElem? s i r hri, List.filter_cons, if_pos (by simp)]
    simp
  have hpos := List.length_pos.mpr hne
  omega

theorem groupVals_take_posInGroup (s : List Row) (i : Nat) (t : Nat) :
    (groupVals s t).take (posInGroup s i t) =
      ((s.take i).filter (fun x => x.team == t)).map Row.value := by
  unfold groupVals posInGroup
  have hsplit : (s.filter (fun x => x.team == t)).map Row.value =
      ((s.take i).filter (fun x => x.team == t)).map Row.value ++
        ((s.drop i).filter (fun x => x.team == t)).map Row.value := by
    conv_lhs => rw [← List.take_append_drop i s]
    rw [List.filter_append, List.map_append]
  rw [hsplit]
  exact List.take_left' (by rw [List.length_map])

theorem rel_of_mem_take {R : Row → Row → Prop} {s : List Row}
    (hp : List.Pairwise R s) {i : Nat} {r : Row} (hri : s[i]? = some r) :
    ∀ x ∈ s.take i, R x r := by
  intro x hx
  have hsp : s = s.take i ++ s.drop i := (List.take_append_drop i s).symm
  rw [hsp] at hp
  exact (List.pairwise_append.mp hp).2.2 x hx r
    (by rw [drop_eq_cons_of_getElem? s i r hri]; exact List.mem_cons_self _ _)

theorem rel_of_mem_drop {R : Row → Row → Prop} {s : List Row}
    (hp : List.Pairwise R s) {i : Nat} {r : Row} (hri : s[i]? = some r) :
    ∀ y ∈ s.drop (i + 1), R r y := by
  intro y hy
  have hdp : List.Pairwise R (s.drop i) := hp.sublist (List.drop_sublist i s)
  rw [drop_eq_cons_of_getElem? s i r hri] at hdp
  exact (List.pairwise_cons.mp hdp).1 y hy

/-- In the sorted table, the same-entity rows before position `i` are
exactly the same-entity rows with a strictly earlier date, when each
entity's dates are pairwise distinct. -/
theorem filter_take_eq_filter_lt (s : List Row) (hs : List.Sorted rowLe s)
    (hd : s.Pairwise (fun a b => a.team = b.team → a.gameDate ≠ b.gameDate))
    (i : Nat) (r : Row) (hri : s[i]? = some r) :
    s.filter (fun x => x.team == r.team && x.gameDate < r.gameDate) =
      (s.take i).filter (fun x => x.team == r.team) := by
  conv_lhs => rw [← List.take_append_drop i s, List.filter_append]
  have h1 : (s.take i).filter (fun x => x.team == r.team && x.gameDate < r.gameDate) =
      (s.take i).filter (fun x => x.team == r.team) := by
    apply List.filter_congr
    intro x hx
    by_cases ht : x.team = r.team
    · have hle := rel_of_mem_take hs hri x hx
      have hne := rel_of_mem_take hd hri x hx
      have hdlt : x.gameDate < r.gameDate := by
        rcases hle with h | ⟨-, hdle⟩
        · omega
        · exact lt_of_le_of_ne hdle (hne ht)
      simp [ht, hdlt]
    · simp [ht]
  have h2 : (s.drop i).filter (fun x => x.team == r.team && x.gameDate < r.gameDate) = [] := by
    rw [drop_eq_cons_of_getElem? s i r hri, List.filter_cons, if_neg (by simp)]
    apply List.filter_eq_nil_iff.mpr
    intro y hy hmatch
    have hle := rel_of_mem_drop hs hri y hy
    have hne := rel_of_mem_drop hd hri y hy
    simp only [Bool.and_eq_true, beq_iff_eq, decide_eq_true_eq] at hmatch
    rcases hle with h | ⟨-, hdle⟩
    · omega
    · have := hne hmatch.1.symm
      omega
  rw [h1, h2, List.append_nil]

theorem length_rolling_features (w : Nat) (rows : List Row) :
    (rolling_features w rows).length = (sortRows rows).length := by
  simp [rolling_features]

theorem rolling_features_getElem (w : Nat) (rows : List Row) (i : Nat) :
    (rolling_features w rows)[i]? =
      ((sortRows rows)[i]?).map (fun r => (r, featAt w (sortRows rows) i)) := by
  unfold rolling_features
  rw [List.getElem?_map, List.getElem?_enum]
  cases h : (sortRows rows)[i]? <;> simp

theorem pairwise_distinct_sortRows (rows : List Row)
    (hd : rows.Pairwise (fun a b => a.team = b.team → a.gameDate ≠ b.gameDate)) :
    (sortRows rows).Pairwise (fun a b => a.team = b.team → a.gameDate ≠ b.gameDate) := by
  have hperm : List.Perm (sortRows rows) rows := List.perm_insertionSort rowLe rows
  exact (List.Perm.pairwise_iff (fun h ht hdq => h ht.symm hdq.symm) hperm).mpr hd

/-- The feature written to sorted position `i` equals the spec-side
feature of the row there. -/
theorem featAt_eq_specFeature (w : Nat) (hw : 1 ≤ w) (rows : List Row)
    (hd : rows.Pairwise (fun a b => a.team = b.team → a.gameDate ≠ b.gameDate))
    (i : Nat) (r : Row) (hri : (sortRows rows)[i]? = some r) :
    featAt w (sortRows rows) i = specFeature w rows r := by
  set s := sortRows rows with hsdef
  have hsorted : List.Sorted rowLe s := List.sorted_insertionSort rowLe rows
  have hdist := pairwise_distinct_sortRows rows hd
  rw [← hsdef] at hdist
  set p := posInGroup s i r.team with hpdef
  have hplt : p < (groupVals s r.team).length := posInGroup_lt s i r hri
  have htake : (groupVals s r.team).take p = priorVals rows r := by
    rw [hpdef, groupVals_take_posInGroup s i r.team]
    unfold priorVals
    rw [← hsdef, filter_take_eq_filter_lt s hsorted hdist i r hri]
  have hlen : (priorVals rows r).length = p := by
    rw [← htake, List.length_take, min_eq_left (le_of_lt hplt)]
  have hform := shiftRollMean_getElem w hw (groupVals s r.team) p hplt
  have hfeat : featAt w s i =
      if p = 0 then none
      else some ((((groupVals s r.team).take p).drop (p - w)).sum /
        ((((groupVals s r.team).take p).drop (p - w)).length : ℚ)) := by
    simp only [featAt, hri]
    rw [hform]
    rfl
  rw [hfeat]
  unfold specFeature lastN
  rw [htake, hlen]
  by_cases hp0 : p = 0
  · rw [if_pos hp0]
    have hpv : priorVals rows r = [] := List.length_eq_zero.mp (by rw [hlen, hp0])
    simp [hpv]
  · rw [if_neg hp0]
    have hne : ((priorVals rows r).drop (p - w)).isEmpty = false := by
      cases hl : (priorVals rows r).drop (p - w) with
      | nil =>
        have hc := congrArg List.length hl
        rw [List.length_drop, hlen] at hc
        simp at hc
        omega
      | cons a l => rfl
    simp only [hne, Bool.false_eq_true, if_false]

/-- Entity "BOS" (code 0) with games on days 1..6 and statistic values
[2, 4, 6, 8, 10, 12]. -/
def exampleBos : List Row :=
  [⟨0, 1, 2⟩, ⟨0, 2, 4⟩, ⟨0, 3, 6⟩, ⟨0, 4, 8⟩, ⟨0, 5, 10⟩, ⟨0, 6, 12⟩]

/-- C2: for every input whose entities have pairwise-distinct game dates
and every window length `w ≥ 1`, `rolling_features` attaches to each row
exactly the mean of the `min(w, k)` values of the same entity's games
immediately preceding it in date order (`k` the number of strictly prior
games), missing when `k = 0`; in particular, the window-5 feature on day 6
of the value sequence [2,4,6,8,10,12] is mean(2,4,6,8,10) = 6. -/
theorem rolling_mean_correct :
    (∀ (w : Nat) (rows : List Row), 1 ≤ w →
      rows.Pairwise (fun a b => a.team = b.team → a.gameDate ≠ b.gameDate) →
      rolling_features w rows =
        (sortRows rows).map (fun r => (r, specFeature w rows r))) ∧
    specFeature 5 exampleBos ⟨0, 6, 12⟩ = some 6 ∧
    (rolling_features 5 exampleBos)[5]? = some (⟨0, 6, 12⟩, some 6) := by
  have hgen : ∀ (w : Nat) (rows : List Row), 1 ≤ w →
      rows.Pairwise (fun a b => a.team = b.team → a.gameDate ≠ b.gameDate) →
      rolling_features w rows =
        (sortRows rows).map (fun r => (r, specFeature w rows r)) := by
    intro w rows hw hd
    apply List.ext_getElem?
    intro i
    rw [rolling_features_getElem, List.getElem?_map]
    cases hri : (sortRows rows)[i]? with
    | none => rfl
    | some r =>
      simp only [Option.map]
      rw [featAt_eq_specFeature w hw rows hd i r hri]
  have h1 : lastN 5 (priorVals exampleBos ⟨0, 6, 12⟩) = [2, 4, 6, 8, 10] := by decide
  have hspec : specFeature 5 exampleBos ⟨0, 6, 12⟩ = some 6 := by
    unfold specFeature
    rw [h1]
    norm_num [List.sum_cons, List.sum_nil]
  refine ⟨hgen, hspec, ?_⟩
  rw [hgen 5 exampleBos (by norm_num) (by decide), List.getElem?_map]
  have hsort : (sortRows exampleBos)[5]? = some ⟨0, 6, 12⟩ := by decide
  rw [hsort]
  simp only [Option.map]
  rw [hspec]

/-- Witness for C2 at the concrete day-1..6 input: the hypotheses hold
and the whole rolling-feature table refines the spec-side feature. -/
theorem rolling_mean_correct_witness :
    ((1 ≤ 5) ∧ exampleBos.Pairwise (fun a b => a.team = b.team → a.gameDate ≠ b.gameDate)) ∧
    rolling_features 5 exampleBos =
      (sortRows exampleBos).map (fun r => (r, specFeature 5 exampleBos r)) :=
  ⟨⟨by decide, by decide⟩, rolling_mean_correct.1 5 exampleBos (by decide) (by decide)⟩

/-! ### Noninterference machinery: two tables that agree except on one
entity's future statistic values -/

/-- Rows at the same position agree on entity and date, and on the value
except possibly for entity `E`'s games at or after time `T2`. -/
def AgreeExceptFuture (E T2 : Nat) (a b : Row) : Prop :=
  a.team = b.team ∧ a.gameDate = b.gameDate ∧
    (¬(a.team = E ∧ T2 ≤ a.gameDate) → a.value = b.value)

instance (E T2 : Nat) (a b : Row) : Decidable (AgreeExceptFuture E T2 a b) := by
  unfold AgreeExceptFuture
  infer_instance

theorem forall2_orderedInsert {R : Row → Row → Prop}
    (hkey : ∀ a b, R a b → a.team = b.team ∧ a.gameDate = b.gameDate)
    {a a' : Row} (ha : R a a') :
    ∀ {l l' : List Row}, List.Forall₂ R l l' →
      List.Forall₂ R (List.orderedInsert rowLe a l) (List.orderedInsert rowLe a' l') := by
  intro l l' h
  induction h with
  | nil => exact List.Forall₂.cons ha List.Forall₂.nil
  | cons hbb htt ih =>
    rename_i b b' t t'
    have hiff : rowLe a b ↔ rowLe a' b' := by
      obtain ⟨h1, h2⟩ := hkey a a' ha
      obtain ⟨h3, h4⟩ := hkey b b' hbb
      unfold rowLe
      rw [h1, h2, h3, h4]
    simp only [List.orderedInsert]
    by_cases hc : rowLe a b
    · rw [if_pos hc, if_pos (hiff.mp hc)]
      exact .cons ha (.cons hbb htt)
    · rw [if_neg hc, if_neg (fun hc2 => hc (hiff.mpr hc2))]
      exact .cons hbb ih

theorem forall2_sortRows {R : Row → Row → Prop}
    (hkey : ∀ a b, R a b → a.team = b.team ∧ a.gameDate = b.gameDate) :
    ∀ {l l' : List Row}, List.Forall₂ R l l' →
      List.Forall₂ R (sortRows l) (sortRows l') := by
  intro l l' h
  induction h with
  | nil => exact .nil
  | cons ha ht ih => exact forall2_orderedInsert hkey ha ih

theorem forall2_filter {R : Row → Row → Prop} (p : Row → Bool)
    (hp : ∀ a b, R a b → p a = p b) :
    ∀ {l l' : List Row}, List.Forall₂ R l l' →
      List.Forall₂ R (l.filter p) (l'.filter p) := by
  intro l l' h
  induction h with
  | nil => exact .nil
  | cons ha ht ih =>
    rename_i a b t t'
    rw [List.filter_cons, List.filter_cons]
    by_cases hpa : p a = true
    · rw [if_pos hpa, if_pos ((hp a b ha) ▸ hpa)]
      exact .cons ha ih
    · rw [if_neg hpa, if_neg (fun hc => hpa ((hp a b ha) ▸ hc))]
      exact ih

theorem forall2_imp_mem {R S : Row → Row → Prop} :
    ∀ {l l' : List Row}, List.Forall₂ R l l' →
      (∀ a b, a ∈ l → R a b → S a b) → List.Forall₂ S l l' := by
  intro l l' h
  induction h with
  | nil => exact fun _ => .nil
  | cons ha ht ih =>
    intro hmem
    exact .cons (hmem _ _ (List.mem_cons_self _ _) ha)
      (ih (fun a b hal => hmem a b (List.mem_cons_of_mem _ hal)))

theorem forall2_value_map_eq :
    ∀ {l l' : List Row}, List.Forall₂ (fun a b : Row => a.value = b.value) l l' →
      l.map Row.value = l'.map Row.value := by
  intro l l' h
  induction h with
  | nil => rfl
  | cons ha ht ih => simp [ha, ih]

theorem forall2_getElem? {R : Row → Row → Prop} {l l' : List Row}
    (h : List.Forall₂ R l l') {i : Nat} {a b : Row}
    (ha : l[i]? = some a) (hb : l'[i]? = some b) : R a b := by
  rw [List.forall₂_iff_get] at h
  have hia : i < l.length := by
    by_contra hge
    rw [List.getElem?_eq_none (by omega)] at ha
    exact Option.noConfusion ha
  have hib : i < l'.length := by
    by_contra hge
    rw [List.getElem?_eq_none (by omega)] at hb
    exact Option.noConfusion hb
  have hr := h.2 i hia hib
  rw [List.get_eq_getElem] at hr
  rw [List.get_eq_getElem] at hr
  rw [List.getElem?_eq_getElem hia] at ha
  rw [List.getElem?_eq_getElem hib] at hb
  rw [Option.some.injEq] at ha hb
  rwa [ha, hb] at hr

/-- With sorted table `s`, if `s` and `s'` agree except on entity `E`'s
values at dates `≥ T2`, the feature written at a position holding one of
`E`'s games dated before `T2` is the same for both tables. -/
theorem featAt_eq_of_agree (w : Nat) (hw : 1 ≤ w) {E T2 : Nat}
    {s s' : List Row} (hsorted : List.Sorted rowLe s)
    (hrel : List.Forall₂ (AgreeExceptFuture E T2) s s')
    {i : Nat} {r r' : Row}
    (hri : s[i]? = some r) (hri' : s'[i]? = some r')
    (hteam : r.team = E) (hdate : r.gameDate < T2) :
    featAt w s i = featAt w s' i := by
  have hR := forall2_getElem? hrel hri hri'
  have hteam' : r'.team = E := by rw [← hR.1]; exact hteam
  have htk : List.Forall₂ (AgreeExceptFuture E T2) (s.take i) (s'.take i) :=
    List.forall₂_take i hrel
  have hfilt : List.Forall₂ (AgreeExceptFuture E T2)
      ((s.take i).filter (fun x => x.team == E))
      ((s'.take i).filter (fun x => x.team == E)) := by
    apply forall2_filter _ _ htk
    intro a b hab
    rw [hab.1]
  have hp : posInGroup s i E = posInGroup s' i E := by
    unfold posInGroup
    exact hfilt.length_eq
  have hvals : ((s.take i).filter (fun x => x.team == E)).map Row.value =
      ((s'.take i).filter (fun x => x.team == E)).map Row.value := by
    apply forall2_value_map_eq
    apply forall2_imp_mem hfilt
    intro a b hmem hab
    apply hab.2.2
    rintro ⟨haE, hT2le⟩
    have hmem2 : a ∈ s.take i := List.mem_of_mem_filter hmem
    have hle := rel_of_mem_take hsorted hri a hmem2
    rcases hle with h | ⟨-, hdle⟩
    · rw [haE, hteam] at h
      omega
    · omega
  have hgt : (groupVals s E).take (posInGroup s i E) =
      (groupVals s' E).take (posInGroup s' i E) := by
    rw [groupVals_take_posInGroup s i E, groupVals_take_posInGroup s' i E, hvals]
  have hplt : posInGroup s i E < (groupVals s E).length := by
    have h := posInGroup_lt s i r hri
    rwa [hteam] at h
  have hplt' : posInGroup s' i E < (groupVals s' E).length := by
    have h := posInGroup_lt s' i r' hri'
    rwa [hteam'] at h
  have hf1 := shiftRollMean_getElem w hw (groupVals s E) (posInGroup s i E) hplt
  have hf2 := shiftRollMean_getElem w hw (groupVals s' E) (posInGroup s' i E) hplt'
  have hjoin : ∀ x : Option ℚ, (Option.some x).join = x := fun x => rfl
  simp only [featAt, hri, hri']
  rw [hteam, hteam', hf1, hf2, hjoin, hjoin, hgt, hp]

/-- C1 (no-leakage / noninterference): for any entity `E` and cutoff time
`T2`, if two input tables agree row-for-row on entity and date, and on
every statistic value except possibly `E`'s values at dates `≥ T2`, then
`rolling_features` attaches the same feature value to every game of `E`
dated before `T2` — modifying future rows never changes an earlier row's
feature, for every window length. -/
theorem no_leakage (w : Nat) (hw : 1 ≤ w) (E T2 : Nat) (rows rows' : List Row)
    (hrel : List.Forall₂ (AgreeExceptFuture E T2) rows rows') :
    List.Forall₂
      (fun p q : Row × Option ℚ =>
        p.1.team = q.1.team ∧ p.1.gameDate = q.1.gameDate ∧
          (p.1.team = E → p.1.gameDate < T2 → p.2 = q.2))
      (rolling_features w rows) (rolling_features w rows') := by
  have hkey : ∀ a b, AgreeExceptFuture E T2 a b →
      a.team = b.team ∧ a.gameDate = b.gameDate := fun a b h => ⟨h.1, h.2.1⟩
  have hs : List.Forall₂ (AgreeExceptFuture E T2) (sortRows rows) (sortRows rows') :=
    forall2_sortRows hkey hrel
  have hsorted : List.Sorted rowLe (sortRows rows) :=
    List.sorted_insertionSort rowLe rows
  rw [List.forall₂_iff_get]
  refine ⟨?_, ?_⟩
  · rw [length_rolling_features, length_rolling_features]
    exact hs.length_eq
  · intro i h1 h2
    have hi1 : i < (sortRows rows).length := by
      rwa [length_rolling_features] at h1
    have hi2 : i < (sortRows rows').length := by
      rwa [length_rolling_features] at h2
    have hri : (sortRows rows)[i]? = some ((sortRows rows)[i]) :=
      List.getElem?_eq_getElem hi1
    have hri' : (sortRows rows')[i]? = some ((sortRows rows')[i]) :=
      List.getElem?_eq_getElem hi2
    have hR := forall2_getElem? hs hri hri'
    have hget1 : (rolling_features w rows).get ⟨i, h1⟩ =
        ((sortRows rows)[i], featAt w (sortRows rows) i) := by
      have hx := rolling_features_getElem w rows i
      rw [hri] at hx
      simp only [Option.map] at hx
      have hy := List.getElem?_eq_getElem h1
      rw [hx] at hy
      rw [Option.some.injEq] at hy
      rw [List.get_eq_getElem]
      exact hy.symm
    have hget2 : (rolling_features w rows').get ⟨i, h2⟩ =
        ((sortRows rows')[i], featAt w (sortRows rows') i) := by
      have hx := rolling_features_getElem w rows' i
      rw [hri'] at hx
      simp only [Option.map] at hx
      have hy := List.getElem?_eq_getElem h2
      rw [hx] at hy
      rw [Option.some.injEq] at hy
      rw [List.get_eq_getElem]
      exact hy.symm
    rw [hget1, hget2]
    refine ⟨hR.1, hR.2.1, ?_⟩
    intro hteamE hdateT
    exact featAt_eq_of_agree w hw hsorted hs hri hri' hteamE hdateT

/-- Witness for C1 at a concrete input: entity 0's game at time 3 has its
value changed from 99 to 50; the features of the games at times 1 and 2
are unchanged. -/
theorem no_leakage_witness :
    ((1 ≤ 5) ∧
      List.Forall₂ (AgreeExceptFuture 0 3)
        [⟨0, 1, 2⟩, ⟨0, 2, 4⟩, ⟨0, 3, 99⟩] [⟨0, 1, 2⟩, ⟨0, 2, 4⟩, ⟨0, 3, 50⟩]) ∧
    List.Forall₂
      (fun p q : Row × Option ℚ =>
        p.1.team = q.1.team ∧ p.1.gameDate = q.1.gameDate ∧
          (p.1.team = 0 → p.1.gameDate < 3 → p.2 = q.2))
      (rolling_features 5 [⟨0, 1, 2⟩, ⟨0, 2, 4⟩, ⟨0, 3, 99⟩])
      (rolling_features 5 [⟨0, 1, 2⟩, ⟨0, 2, 4⟩, ⟨0, 3, 50⟩]) :=
  ⟨⟨by decide, by decide⟩,
    no_leakage 5 (by decide) 0 3 [⟨0, 1, 2⟩, ⟨0, 2, 4⟩, ⟨0, 3, 99⟩]
      [⟨0, 1, 2⟩, ⟨0, 2, 4⟩, ⟨0, 3, 50⟩] (by decide)⟩

end NHLProj
